import Mathlib

/-!
Shallow embedding of the project-resolution engine of the `fast` directory
bookmarking tool (`src/main.rs`), together with theorems checking the
specification's statements about it.

The embedded functions are `select_project`, `print_projects`, `user_input`
and their string helpers (`trim_end`, `tilde_path`, substring matching).
Interactive input is modeled as a list of read results: `some raw` is a line
delivered by `read_line` (with its trailing newline), `none` is a read that
fails with an I/O error, and an exhausted list models a blocking read that
never returns.  Output is modeled as the list of chunks written to stdout,
one element per `print!`/`println!` call.
-/

namespace Fast

/-- Rust `char::is_whitespace` (Unicode `White_Space`), restricted to the ASCII
range, which is all the resolver's claims exercise. -/
def isRustWhitespace (c : Char) : Bool :=
  c == ' ' || c == '\t' || c == '\n' || c == '\r' || c == '\x0b' || c == '\x0c'

/-- Rust `str::trim_end`: remove the maximal trailing run of whitespace. -/
def trim_end (s : String) : String :=
  String.mk ((s.data.reverse.dropWhile isRustWhitespace).reverse)

/-- Rust `str::contains` (main.rs:253): case-sensitive substring test,
`needle` occurring anywhere inside `hay`. -/
def contains (hay needle : String) : Bool :=
  decide (needle.data <:+: hay.data)

/-- `HashMap<String, PathBuf>` modeled as an association list.  The Rust type
guarantees distinct keys; theorems take a `Nodup` hypothesis on the key list
where that matters. -/
abbrev Projects := List (String × String)

/-- Rust `HashMap::get_key_value` (main.rs:246): the stored (key, value)
entry whose key equals the query. -/
def get_key_value (ps : Projects) (q : String) : Option (String × String) :=
  ps.find? (fun kv => kv.1 == q)

/-- Rust `HashMap::get` (main.rs:263). -/
def get (ps : Projects) (q : String) : Option String :=
  (get_key_value ps q).map Prod.snd

/-- The matched keys (main.rs:251-254): project keys containing `q` as a
substring.  Rust collects them into a `HashSet`; since `HashMap` keys are
distinct, that set's cardinality and membership coincide with this list's. -/
def matchKeys (ps : Projects) (q : String) : List String :=
  (ps.map Prod.fst).filter (fun k => contains k q)

/-- The disambiguation sub-mapping (main.rs:269-270): a clone of `ps`
retaining exactly the entries whose key is in the matched set. -/
def subsetOf (ps : Projects) (q : String) : Projects :=
  ps.filter (fun kv => (matchKeys ps q).contains kv.1)

/-- Rust `str::replacen(pat, rep, 1)` on character lists: replace the first
occurrence of `pat` (the empty pattern matches immediately, as in Rust). -/
def replaceFirst (s pat rep : List Char) : List Char :=
  match s with
  | [] => if pat = [] then rep else []
  | c :: rest =>
    if pat.isPrefixOf (c :: rest) then rep ++ (c :: rest).drop pat.length
    else c :: replaceFirst rest pat rep

/-- `tilde_path` (main.rs:374-380): abbreviate the first occurrence of the
home directory in the rendered path to `~`.  The home directory string is a
parameter of the embedding (the program obtains it from the environment). -/
def tilde_path (home : String) (path : String) : String :=
  String.mk (replaceFirst path.data home.data "~".data)

/-- Left-aligned space padding, as Rust's `{: <width$}` format. -/
def padRight (s : String) (w : Nat) : String :=
  s ++ String.mk (List.replicate (w - s.length) ' ')

/-- The name-column width (main.rs:317): the longest key length plus a fixed
2-space gap.  Rust's `String::len` is the UTF-8 byte length, which equals the
character count on ASCII names as used here.  The `.max().unwrap()` panics on
an empty mapping; the resolver never lists one, and the model returns `2`
there. -/
def listingWidth (ps : Projects) : Nat :=
  (ps.map (fun kv => kv.1.length)).foldr Nat.max 0 + 2

/-- The order `itertools::sorted` uses on `(&String, &PathBuf)` pairs
(main.rs:318): lexicographic, project name first. -/
def pairLe (a b : String × String) : Prop :=
  a.1 < b.1 ∨ (a.1 = b.1 ∧ a.2 ≤ b.2)

instance : DecidableRel pairLe := fun a b =>
  inferInstanceAs (Decidable (a.1 < b.1 ∨ (a.1 = b.1 ∧ a.2 ≤ b.2)))

/-- The sorted listing order (main.rs:318). -/
def sortPairs (ps : Projects) : Projects := List.insertionSort pairLe ps

/-- The count-based heading (main.rs:308-310), including the newline in the
format string and the one appended by `println!`. -/
def countHeading (n : Nat) : String :=
  toString n ++ " project" ++ (if n != 1 then "s" else "") ++ " found" ++ "\n\n"

/-- ANSI bold escape prefixed to each project name (main.rs:321). -/
def boldOn : String := "\x1b[1m"

/-- ANSI reset escape after each project name (main.rs:321). -/
def boldOff : String := "\x1b[0m"

/-- `print_projects` (main.rs:306-327) as the list of stdout chunks it
writes: a heading chunk, then one chunk per (name, path) pair, sorted by
pair, name column padded to `listingWidth`. -/
def print_projects (home : String) (ps : Projects) (prompt : String) : List String :=
  let heading := if prompt = "" then countHeading ps.length else prompt ++ "\n\n"
  let w := listingWidth ps
  heading ::
    (sortPairs ps).map (fun kv =>
      boldOn ++ padRight kv.1 w ++ boldOff ++ tilde_path home kv.2 ++ "\n")

/-- Outcome of one `user_input` call (main.rs:331-339): a line delivered (and
trimmed), a panic because `read_line` returned an I/O error and `.expect`
fired, or a blocking read that never returns because no further input comes. -/
inductive ReadOutcome
  | line (s : String)
  | panicked
  | blocked
deriving DecidableEq

/-- `user_input` (main.rs:331-339): read one line and trim it with
`str::trim_end`.  The prompt chunk it prints is accounted for by the caller
(`select_project` appends `enterPrompt` to its output trace). -/
def user_input (stdin : List (Option String)) : ReadOutcome × List (Option String) :=
  match stdin with
  | [] => (.blocked, [])
  | none :: rest => (.panicked, rest)
  | some raw :: rest => (.line (trim_end raw), rest)

/-- The prompt `select_project` passes to `user_input` (main.rs:241, 273). -/
def enterPrompt : String := "\nEnter project: "

/-- Result of a `select_project` call: `ok` is Rust `Ok((name, path))`,
`errNoProjects` the `bail!(NO_PROJECTS_ERROR)` at main.rs:235, `errNoMatch`
the `bail!("No matching project found")` at main.rs:258, `panic msg` a Rust
panic (from `.expect` or `.unwrap`), and `blocked` a read that never
returns. -/
inductive SpResult
  | ok (name path : String)
  | errNoProjects
  | errNoMatch
  | panic (msg : String)
  | blocked
deriving DecidableEq

/-- `select_project` (main.rs:229-280).  Besides the Rust arguments it takes
the home directory (used only for rendering paths) and the modeled stdin;
it returns the result, the list of stdout chunks written, and the remaining
stdin.  The two `user_input` call sites appear as matches on the stdin list,
mirroring `user_input` above chunk for chunk. -/
def select_project (query : String) (ps : Projects) (prompt : String)
    (home : String) (stdin : List (Option String)) :
    SpResult × List String × List (Option String) :=
  if ps.isEmpty then (.errNoProjects, [], stdin)
  else if query = "" then
    -- main.rs:239-243: list everything, read a query, recurse with "" prompt
    let out := print_projects home ps prompt ++ [enterPrompt]
    match stdin with
    | [] => (.blocked, out, [])
    | none :: rest => (.panic "Read user input", out, rest)
    | some raw :: rest =>
      let res := select_project (trim_end raw) ps "" home rest
      (res.1, out ++ res.2.1, res.2.2)
  else
    -- main.rs:246-248: exact match wins
    match get_key_value ps query with
    | some kv => (.ok kv.1 kv.2, [], stdin)
    | none =>
      -- main.rs:251-279: substring matching on the key set
      match matchKeys ps query with
      | [] => (.errNoMatch, [], stdin)
      | [k] =>
        match get ps k with
        | some path => (.ok k path, [], stdin)
        | none => (.panic "unwrap", [], stdin)
      | _ :: _ :: _ =>
        let subset := subsetOf ps query
        let out := print_projects home subset prompt ++ [enterPrompt]
        match stdin with
        | [] => (.blocked, out, [])
        | none :: rest => (.panic "Read user input", out, rest)
        | some raw :: rest =>
          match select_project (trim_end raw) subset "" home rest with
          | (.ok key _, out2, rest2) =>
            match get_key_value ps key with
            | some kv => (.ok kv.1 kv.2, out ++ out2, rest2)
            | none => (.panic "unwrap", out ++ out2, rest2)
          | (r, out2, rest2) => (r, out ++ out2, rest2)
termination_by stdin.length
decreasing_by all_goals simp_wf

/-! ### Basic facts about the map and string operations -/

theorem get_key_value_key {ps : Projects} {q : String} {kv : String × String}
    (h : get_key_value ps q = some kv) : kv.1 = q := by
  have := List.find?_some h
  simpa using this

theorem get_key_value_mem {ps : Projects} {q : String} {kv : String × String}
    (h : get_key_value ps q = some kv) : kv ∈ ps :=
  List.mem_of_find?_eq_some h

theorem get_key_value_eq_none {ps : Projects} {q : String} :
    get_key_value ps q = none ↔ q ∉ ps.map Prod.fst := by
  simp only [get_key_value, List.find?_eq_none, beq_iff_eq, List.mem_map]
  constructor
  · rintro h ⟨kv, hkv, rfl⟩
    exact h kv hkv rfl
  · intro h kv hkv heq
    exact h ⟨kv, hkv, heq⟩

theorem get_key_value_of_mem_keys {ps : Projects} {q : String}
    (h : q ∈ ps.map Prod.fst) : ∃ v, get_key_value ps q = some (q, v) := by
  cases hgkv : get_key_value ps q with
  | none => exact absurd (get_key_value_eq_none.mp hgkv) (not_not_intro h)
  | some kv =>
    refine ⟨kv.2, ?_⟩
    rw [← get_key_value_key hgkv, Prod.mk.eta]

theorem get_key_value_of_mem_nodup {ps : Projects} {q v : String}
    (nd : (ps.map Prod.fst).Nodup) (h : (q, v) ∈ ps) :
    get_key_value ps q = some (q, v) := by
  induction ps with
  | nil => cases h
  | cons kv rest ih =>
    rw [List.map_cons, List.nodup_cons] at nd
    rcases List.mem_cons.mp h with h1 | h1
    · rw [← h1]
      simp [get_key_value, List.find?_cons]
    · have hq : q ∈ rest.map Prod.fst := List.mem_map.mpr ⟨(q, v), h1, rfl⟩
      have hne : ¬(kv.1 == q) = true := by
        simp only [beq_iff_eq]
        exact fun e => nd.1 (e ▸ hq)
      have step : get_key_value (kv :: rest) q = get_key_value rest q := by
        simp [get_key_value, List.find?_cons, hne]
      rw [step]
      exact ih nd.2 h1

theorem contains_self (s : String) : contains s s = true := by
  simp [contains, List.infix_refl]

theorem mem_matchKeys {ps : Projects} {q k : String} :
    k ∈ matchKeys ps q ↔ k ∈ ps.map Prod.fst ∧ contains k q = true := by
  simp [matchKeys, List.mem_filter]

theorem matchKeys_nil_of_no_substring {ps : Projects} {q : String}
    (h : ∀ k ∈ ps.map Prod.fst, contains k q = false) : matchKeys ps q = [] := by
  rw [matchKeys, List.filter_eq_nil_iff]
  intro k hk
  simp [h k hk]

theorem exact_none_of_matchKeys_nil {ps : Projects} {q : String}
    (h : matchKeys ps q = []) : get_key_value ps q = none := by
  rw [get_key_value_eq_none]
  intro hmem
  have : q ∈ matchKeys ps q := mem_matchKeys.mpr ⟨hmem, contains_self q⟩
  rw [h] at this
  cases this

theorem ne_nil_of_matchKeys_cons {ps : Projects} {q k : String} {ks : List String}
    (h : matchKeys ps q = k :: ks) : ps ≠ [] := by
  intro hnil
  rw [hnil] at h
  cases h

theorem subsetOf_eq_filter (ps : Projects) (q : String) :
    subsetOf ps q = ps.filter (fun kv => contains kv.1 q) := by
  apply List.filter_congr
  intro kv hkv
  have h1 : kv.1 ∈ ps.map Prod.fst := List.mem_map.mpr ⟨kv, hkv, rfl⟩
  cases hc : contains kv.1 q with
  | true =>
    have : kv.1 ∈ matchKeys ps q := mem_matchKeys.mpr ⟨h1, hc⟩
    simp [this]
  | false =>
    have : kv.1 ∉ matchKeys ps q := fun hmem => by
      have := (mem_matchKeys.mp hmem).2
      rw [hc] at this
      cases this
    simp [this]

theorem map_fst_subsetOf (ps : Projects) (q : String) :
    (subsetOf ps q).map Prod.fst = matchKeys ps q := by
  rw [subsetOf_eq_filter, matchKeys]
  induction ps with
  | nil => rfl
  | cons kv rest ih =>
    simp only [List.filter_cons, List.map_cons]
    cases hc : contains kv.1 q with
    | true => simp [hc, ih]
    | false => simp [hc, ih]

theorem keys_subsetOf_subset (ps : Projects) (q : String) :
    (subsetOf ps q).map Prod.fst ⊆ ps.map Prod.fst := by
  rw [subsetOf_eq_filter]
  exact (List.Sublist.map Prod.fst (List.filter_sublist ps)).subset

/-! ### Evaluation of `select_project` branch by branch -/

theorem sp_nil (q prompt home : String) (stdin : List (Option String)) :
    select_project q [] prompt home stdin = (.errNoProjects, [], stdin) := by
  rw [select_project.eq_def]
  rfl

theorem sp_prompt_blocked {ps : Projects} (hps : ps ≠ []) (prompt home : String) :
    select_project "" ps prompt home [] =
      (.blocked, print_projects home ps prompt ++ [enterPrompt], []) := by
  rw [select_project.eq_def]
  simp [List.isEmpty_iff, hps]

theorem sp_prompt_panic {ps : Projects} (hps : ps ≠ []) (prompt home : String)
    (rest : List (Option String)) :
    select_project "" ps prompt home (none :: rest) =
      (.panic "Read user input", print_projects home ps prompt ++ [enterPrompt], rest) := by
  rw [select_project.eq_def]
  simp [List.isEmpty_iff, hps]

theorem sp_prompt_line {ps : Projects} (hps : ps ≠ []) (prompt home raw : String)
    (rest : List (Option String)) :
    select_project "" ps prompt home (some raw :: rest) =
      ((select_project (trim_end raw) ps "" home rest).1,
       (print_projects home ps prompt ++ [enterPrompt]) ++
         (select_project (trim_end raw) ps "" home rest).2.1,
       (select_project (trim_end raw) ps "" home rest).2.2) := by
  rw [select_project.eq_def]
  simp [List.isEmpty_iff, hps]

theorem sp_exact {ps : Projects} {q : String} {kv : String × String}
    (hq : q ≠ "") (hkv : get_key_value ps q = some kv)
    (prompt home : String) (stdin : List (Option String)) :
    select_project q ps prompt home stdin = (.ok kv.1 kv.2, [], stdin) := by
  have hps : ps ≠ [] := by
    intro h
    rw [h] at hkv
    simp [get_key_value] at hkv
  rw [select_project.eq_def]
  simp [List.isEmpty_iff, hps, hq, hkv]

theorem sp_noMatch {ps : Projects} {q : String}
    (hps : ps ≠ []) (hq : q ≠ "") (hnone : get_key_value ps q = none)
    (hm : matchKeys ps q = []) (prompt home : String) (stdin : List (Option String)) :
    select_project q ps prompt home stdin = (.errNoMatch, [], stdin) := by
  rw [select_project.eq_def]
  simp [List.isEmpty_iff, hps, hq, hnone, hm]

theorem sp_single {ps : Projects} {q k v : String}
    (hq : q ≠ "") (hnone : get_key_value ps q = none)
    (hm : matchKeys ps q = [k]) (hv : get ps k = some v)
    (prompt home : String) (stdin : List (Option String)) :
    select_project q ps prompt home stdin = (.ok k v, [], stdin) := by
  have hps := ne_nil_of_matchKeys_cons hm
  rw [select_project.eq_def]
  simp [List.isEmpty_iff, hps, hq, hnone, hm, hv]

theorem sp_ambig_blocked {ps : Projects} {q k1 k2 : String} {ks : List String}
    (hq : q ≠ "") (hnone : get_key_value ps q = none)
    (hm : matchKeys ps q = k1 :: k2 :: ks) (prompt home : String) :
    select_project q ps prompt home [] =
      (.blocked, print_projects home (subsetOf ps q) prompt ++ [enterPrompt], []) := by
  have hps := ne_nil_of_matchKeys_cons hm
  rw [select_project.eq_def]
  simp [List.isEmpty_iff, hps, hq, hnone, hm]

theorem sp_ambig_panic {ps : Projects} {q k1 k2 : String} {ks : List String}
    (hq : q ≠ "") (hnone : get_key_value ps q = none)
    (hm : matchKeys ps q = k1 :: k2 :: ks) (prompt home : String)
    (rest : List (Option String)) :
    select_project q ps prompt home (none :: rest) =
      (.panic "Read user input",
       print_projects home (subsetOf ps q) prompt ++ [enterPrompt], rest) := by
  have hps := ne_nil_of_matchKeys_cons hm
  rw [select_project.eq_def]
  simp [List.isEmpty_iff, hps, hq, hnone, hm]

theorem sp_single_panic {ps : Projects} {q k : String}
    (hq : q ≠ "") (hnone : get_key_value ps q = none)
    (hm : matchKeys ps q = [k]) (hv : get ps k = none)
    (prompt home : String) (stdin : List (Option String)) :
    select_project q ps prompt home stdin = (.panic "unwrap", [], stdin) := by
  have hps := ne_nil_of_matchKeys_cons hm
  rw [select_project.eq_def]
  simp [List.isEmpty_iff, hps, hq, hnone, hm, hv]

theorem sp_ambig_line {ps : Projects} {q k1 k2 : String} {ks : List String}
    (hq : q ≠ "") (hnone : get_key_value ps q = none)
    (hm : matchKeys ps q = k1 :: k2 :: ks) (prompt home raw : String)
    (rest : List (Option String)) :
    select_project q ps prompt home (some raw :: rest) =
      (match select_project (trim_end raw) (subsetOf ps q) "" home rest with
       | (.ok key _, out2, rest2) =>
         (match get_key_value ps key with
          | some kv => (SpResult.ok kv.1 kv.2,
              (print_projects home (subsetOf ps q) prompt ++ [enterPrompt]) ++ out2, rest2)
          | none => (SpResult.panic "unwrap",
              (print_projects home (subsetOf ps q) prompt ++ [enterPrompt]) ++ out2, rest2))
       | (r, out2, rest2) =>
         (r, (print_projects home (subsetOf ps q) prompt ++ [enterPrompt]) ++ out2, rest2)) := by
  have hps := ne_nil_of_matchKeys_cons hm
  rw [select_project.eq_def]
  simp [List.isEmpty_iff, hps, hq, hnone, hm]

theorem get_eq_some {ps : Projects} {k v : String} (h : get ps k = some v) :
    get_key_value ps k = some (k, v) := by
  unfold get at h
  cases hg : get_key_value ps k with
  | none => rw [hg] at h; cases h
  | some kv =>
    rw [hg] at h
    simp at h
    rw [← h, ← get_key_value_key hg, Prod.mk.eta]

/-- Whenever `select_project` succeeds with a pair `(name, path)`, that pair is
the entry stored under `name` in the very mapping the call was given. -/
theorem ok_lookup :
    ∀ (q : String) (ps : Projects) (prompt home : String) (stdin : List (Option String))
      (name path : String),
      (select_project q ps prompt home stdin).1 = .ok name path →
      get_key_value ps name = some (name, path) := by
  intro q ps prompt home stdin
  induction q, ps, prompt, home, stdin using select_project.induct with
  | case1 q ps prompt home stdin hps =>
    intro name path h
    rw [List.isEmpty_iff] at hps
    rw [hps, sp_nil] at h
    cases h
  | case2 ps prompt home hps =>
    intro name path h
    rw [sp_prompt_blocked (by simpa [List.isEmpty_iff] using hps) prompt home] at h
    cases h
  | case3 ps prompt home hps rest =>
    intro name path h
    rw [sp_prompt_panic (by simpa [List.isEmpty_iff] using hps) prompt home rest] at h
    cases h
  | case4 ps prompt home hps raw rest ih =>
    intro name path h
    rw [sp_prompt_line (by simpa [List.isEmpty_iff] using hps) prompt home raw rest] at h
    exact ih name path h
  | case5 q ps prompt home stdin hps hq kv hkv =>
    intro name path h
    rw [sp_exact hq hkv] at h
    obtain ⟨h1, h2⟩ := SpResult.ok.inj h
    subst h1
    subst h2
    have he : some ((kv.1, kv.2) : String × String) = some kv := by rw [Prod.mk.eta]
    rw [he, get_key_value_key hkv]
    exact hkv
  | case6 q ps prompt home stdin hps hq hnone hm =>
    intro name path h
    rw [sp_noMatch (by simpa [List.isEmpty_iff] using hps) hq hnone hm] at h
    cases h
  | case7 q ps prompt home stdin hps hq hnone k hm v hv =>
    intro name path h
    rw [sp_single hq hnone hm hv] at h
    obtain ⟨h1, h2⟩ := SpResult.ok.inj h
    subst h1
    subst h2
    exact get_eq_some hv
  | case8 q ps prompt home stdin hps hq hnone k hm hv =>
    intro name path h
    rw [sp_single_panic hq hnone hm hv] at h
    cases h
  | case9 q ps prompt home hps hq hnone k1 k2 ks hm =>
    intro name path h
    rw [sp_ambig_blocked hq hnone hm] at h
    cases h
  | case10 q ps prompt home hps hq hnone k1 k2 ks hm rest =>
    intro name path h
    rw [sp_ambig_panic hq hnone hm] at h
    cases h
  | case11 q ps prompt home hps hq hnone k1 k2 ks hm subset raw rest key path2 out2 rest2 hrec kv hkv ih =>
    intro name path h
    have hrec2 : select_project (trim_end raw) (subsetOf ps q) "" home rest =
        (SpResult.ok key path2, out2, rest2) := hrec
    rw [sp_ambig_line hq hnone hm, hrec2] at h
    simp only [hkv] at h
    obtain ⟨h1, h2⟩ := SpResult.ok.inj h
    subst h1
    subst h2
    have he : some ((kv.1, kv.2) : String × String) = some kv := by rw [Prod.mk.eta]
    rw [he, get_key_value_key hkv]
    exact hkv
  | case12 q ps prompt home hps hq hnone k1 k2 ks hm subset raw rest key path2 out2 rest2 hrec hkv ih =>
    intro name path h
    have hrec2 : select_project (trim_end raw) (subsetOf ps q) "" home rest =
        (SpResult.ok key path2, out2, rest2) := hrec
    rw [sp_ambig_line hq hnone hm, hrec2] at h
    simp only [hkv] at h
    cases h
  | case13 q ps prompt home hps hq hnone k1 k2 ks hm subset raw rest r out2 rest2 hnotok hrec ih =>
    intro name path h
    have hrec2 : select_project (trim_end raw) (subsetOf ps q) "" home rest =
        (r, out2, rest2) := hrec
    rw [sp_ambig_line hq hnone hm, hrec2] at h
    cases r with
    | ok key path2 => exact absurd rfl (hnotok key path2)
    | errNoProjects => cases h
    | errNoMatch => cases h
    | panic msg => cases h
    | blocked => cases h

/-- The two `.unwrap()` calls inside `select_project` (main.rs:262-263 and
main.rs:277) never fire: no call ever returns the modeled unwrap panic. -/
theorem no_unwrap_panic :
    ∀ (q : String) (ps : Projects) (prompt home : String) (stdin : List (Option String)),
      (select_project q ps prompt home stdin).1 ≠ .panic "unwrap" := by
  intro q ps prompt home stdin
  induction q, ps, prompt, home, stdin using select_project.induct with
  | case1 q ps prompt home stdin hps =>
    rw [List.isEmpty_iff] at hps
    rw [hps, sp_nil]
    simp
  | case2 ps prompt home hps =>
    rw [sp_prompt_blocked (by simpa [List.isEmpty_iff] using hps) prompt home]
    simp
  | case3 ps prompt home hps rest =>
    rw [sp_prompt_panic (by simpa [List.isEmpty_iff] using hps) prompt home rest]
    simp +decide
  | case4 ps prompt home hps raw rest ih =>
    rw [sp_prompt_line (by simpa [List.isEmpty_iff] using hps) prompt home raw rest]
    exact ih
  | case5 q ps prompt home stdin hps hq kv hkv =>
    rw [sp_exact hq hkv]
    simp
  | case6 q ps prompt home stdin hps hq hnone hm =>
    rw [sp_noMatch (by simpa [List.isEmpty_iff] using hps) hq hnone hm]
    simp
  | case7 q ps prompt home stdin hps hq hnone k hm v hv =>
    rw [sp_single hq hnone hm hv]
    simp
  | case8 q ps prompt home stdin hps hq hnone k hm hv =>
    exfalso
    have hk : k ∈ matchKeys ps q := by rw [hm]; exact List.mem_cons_self k []
    obtain ⟨v, hv2⟩ := get_key_value_of_mem_keys (mem_matchKeys.mp hk).1
    rw [get, hv2] at hv
    cases hv
  | case9 q ps prompt home hps hq hnone k1 k2 ks hm =>
    rw [sp_ambig_blocked hq hnone hm]
    simp
  | case10 q ps prompt home hps hq hnone k1 k2 ks hm rest =>
    rw [sp_ambig_panic hq hnone hm]
    simp +decide
  | case11 q ps prompt home hps hq hnone k1 k2 ks hm subset raw rest key path2 out2 rest2 hrec kv hkv ih =>
    have hrec2 : select_project (trim_end raw) (subsetOf ps q) "" home rest =
        (SpResult.ok key path2, out2, rest2) := hrec
    rw [sp_ambig_line hq hnone hm, hrec2]
    simp only [hkv]
    simp
  | case12 q ps prompt home hps hq hnone k1 k2 ks hm subset raw rest key path2 out2 rest2 hrec hkv ih =>
    exfalso
    have hrec2 : select_project (trim_end raw) (subsetOf ps q) "" home rest =
        (SpResult.ok key path2, out2, rest2) := hrec
    have hok : (select_project (trim_end raw) (subsetOf ps q) "" home rest).1 =
        .ok key path2 := by rw [hrec2]
    have hmem := get_key_value_mem (ok_lookup _ _ _ _ _ _ _ hok)
    have hkey : key ∈ (subsetOf ps q).map Prod.fst := List.mem_map.mpr ⟨(key, path2), hmem, rfl⟩
    obtain ⟨v, hv2⟩ := get_key_value_of_mem_keys (keys_subsetOf_subset ps q hkey)
    rw [hkv] at hv2
    cases hv2
  | case13 q ps prompt home hps hq hnone k1 k2 ks hm subset raw rest r out2 rest2 hnotok hrec ih =>
    have hrec2 : select_project (trim_end raw) (subsetOf ps q) "" home rest =
        (r, out2, rest2) := hrec
    rw [sp_ambig_line hq hnone hm, hrec2]
    rw [hrec2] at ih
    cases r with
    | ok key path2 => exact absurd rfl (hnotok key path2)
    | errNoProjects => simp
    | errNoMatch => simp
    | panic msg => simpa using ih
    | blocked => simp

/-! ### Facts about the listing order and padding -/

instance : IsTotal (String × String) pairLe :=
  ⟨fun a b => by
    rcases lt_trichotomy a.1 b.1 with h | h | h
    · exact Or.inl (Or.inl h)
    · rcases le_total a.2 b.2 with h2 | h2
      · exact Or.inl (Or.inr ⟨h, h2⟩)
      · exact Or.inr (Or.inr ⟨h.symm, h2⟩)
    · exact Or.inr (Or.inl h)⟩

instance : IsTrans (String × String) pairLe :=
  ⟨fun a b c hab hbc => by
    rcases hab with h1 | ⟨e1, l1⟩
    · rcases hbc with h2 | ⟨e2, l2⟩
      · exact Or.inl (h1.trans h2)
      · exact Or.inl (lt_of_lt_of_le h1 (le_of_eq e2))
    · rcases hbc with h2 | ⟨e2, l2⟩
      · exact Or.inl (lt_of_le_of_lt (le_of_eq e1) h2)
      · exact Or.inr ⟨e1.trans e2, l1.trans l2⟩⟩

theorem sortPairs_perm (ps : Projects) : (sortPairs ps).Perm ps :=
  List.perm_insertionSort pairLe ps

theorem sortPairs_sorted_names (ps : Projects) :
    List.Sorted (fun a b : String × String => a.1 ≤ b.1) (sortPairs ps) := by
  have h := List.sorted_insertionSort pairLe ps
  exact h.imp (fun hab => by
    rcases hab with h1 | ⟨e1, _⟩
    · exact le_of_lt h1
    · exact le_of_eq e1)

theorem le_foldr_max {l : List Nat} {x : Nat} (h : x ∈ l) : x ≤ l.foldr Nat.max 0 := by
  induction l with
  | nil => cases h
  | cons a t ih =>
    rcases List.mem_cons.mp h with rfl | h2
    · exact Nat.le_max_left _ _
    · exact le_trans (ih h2) (Nat.le_max_right _ _)

theorem length_le_listingWidth {ps : Projects} {kv : String × String} (h : kv ∈ ps) :
    kv.1.length ≤ listingWidth ps := by
  have : kv.1.length ∈ ps.map (fun kv => kv.1.length) :=
    List.mem_map.mpr ⟨kv, h, rfl⟩
  exact le_trans (le_foldr_max this) (Nat.le_add_right _ 2)

theorem padRight_length {s : String} {w : Nat} (h : s.length ≤ w) :
    (padRight s w).length = w := by
  have h2 : (String.mk (List.replicate (w - s.length) ' ')).length = w - s.length := by
    rw [String.length_mk, List.length_replicate]
  rw [padRight, String.length_append, h2]
  omega

/-! ### Facts about `trim_end` -/

theorem head?_dropWhile {p : α → Bool} {l : List α} {c : α}
    (h : (List.dropWhile p l).head? = some c) : p c = false := by
  induction l with
  | nil => cases h
  | cons a t ih =>
    rw [List.dropWhile_cons] at h
    by_cases hp : p a = true
    · rw [if_pos hp] at h
      exact ih h
    · rw [if_neg hp] at h
      cases h
      exact Bool.not_eq_true _ |>.mp hp

/-- `trim_end` splits the string into the kept part followed by a run of
whitespace, and the kept part does not end in whitespace. -/
theorem trim_end_spec (raw : String) :
    ∃ ws : List Char,
      raw.data = (trim_end raw).data ++ ws
      ∧ (∀ c ∈ ws, isRustWhitespace c = true)
      ∧ (∀ c, (trim_end raw).data.getLast? = some c → isRustWhitespace c = false) := by
  refine ⟨(raw.data.reverse.takeWhile isRustWhitespace).reverse, ?_, ?_, ?_⟩
  · conv_lhs => rw [← List.reverse_reverse raw.data,
      ← List.takeWhile_append_dropWhile (p := isRustWhitespace) (l := raw.data.reverse)]
    rw [List.reverse_append]
    rfl
  · intro c hc
    exact List.mem_takeWhile_imp (List.mem_reverse.mp hc)
  · intro c hc
    rw [trim_end] at hc
    simp only [String.data] at hc
    rw [List.getLast?_reverse] at hc
    exact head?_dropWhile hc

/-- Trimming removes a trailing newline (on top of any other trailing
whitespace). -/
theorem trim_end_newline (s : String) : trim_end (s ++ "\n") = trim_end s := by
  rw [trim_end, trim_end, String.data_append]
  have : ("\n" : String).data = ['\n'] := rfl
  rw [this, List.reverse_append]
  rfl

/-! ### The claims -/

/-- C1: for every non-empty project mapping and every query that exactly
equals some key, `select_project` returns that key's (name, path) pair,
without prompting, even when other keys contain the query as a substring:
the exact-match check runs before any substring matching. -/
theorem C1_exact_match_wins (q path prompt home : String) (ps : Projects)
    (stdin : List (Option String))
    (nd : (ps.map Prod.fst).Nodup) (hq : q ≠ "") (hmem : (q, path) ∈ ps) :
    select_project q ps prompt home stdin = (.ok q path, [], stdin) := by
  have hkv := get_key_value_of_mem_nodup nd hmem
  exact sp_exact hq hkv prompt home stdin

/-- C1 witness: `{"api": "/a", "apiserver": "/b"}` with query `"api"` returns
`("api", "/a")` although `"apiserver"` contains `"api"`. -/
theorem C1_witness :
    select_project "api" [("api", "/a"), ("apiserver", "/b")]
        "Which project should be loaded?" "" []
      = (.ok "api" "/a", [], []) :=
  C1_exact_match_wins "api" "/a" "Which project should be loaded?" ""
    [("api", "/a"), ("apiserver", "/b")] [] (by decide) (by decide) (by decide)

/-- C2: for the empty mapping, `select_project` fails immediately with the
no-projects error for every query, printing nothing and reading nothing. -/
theorem C2_empty_mapping_fails_first (q prompt home : String)
    (stdin : List (Option String)) :
    select_project q [] prompt home stdin = (.errNoProjects, [], stdin) :=
  sp_nil q prompt home stdin

/-- C3 counterexample: with mapping `{"web-a": "/1", "web-b": "/2"}`, query
`"web"` and a non-empty caller prompt, the disambiguation listing's heading
chunk is the caller's prompt repeated, not the count-based heading the claim
requires. -/
theorem C3_counterexample :
    ((select_project "web" [("web-a", "/1"), ("web-b", "/2")]
        "Which project should be loaded?" "" [some "web-a\n"]).2.1).head?
      = some ("Which project should be loaded?" ++ "\n\n")
    ∧ ("Which project should be loaded?" ++ "\n\n") ≠ countHeading 2 := by
  constructor
  · simp +decide [select_project.eq_def, get_key_value, matchKeys, subsetOf, contains,
      trim_end, isRustWhitespace, print_projects, countHeading]
  · decide

/-- C3 amended: the disambiguation listing is rendered with the prompt of the
current `select_project` invocation as its heading; the count-based heading
appears exactly when that prompt is empty (as it is in every recursive
call). -/
theorem C3_amended_heading_is_callers_prompt (q prompt home k1 k2 : String)
    (ks : List String) (ps : Projects) (stdin : List (Option String))
    (hq : q ≠ "") (hnone : get_key_value ps q = none)
    (hm : matchKeys ps q = k1 :: k2 :: ks) :
    ((select_project q ps prompt home stdin).2.1).head? =
      some (if prompt = "" then countHeading (subsetOf ps q).length
            else prompt ++ "\n\n") := by
  cases stdin with
  | nil =>
    rw [sp_ambig_blocked hq hnone hm]
    simp [print_projects]
  | cons o rest =>
    cases o with
    | none =>
      rw [sp_ambig_panic hq hnone hm]
      simp [print_projects]
    | some raw =>
      rw [sp_ambig_line hq hnone hm]
      rcases hsel : select_project (trim_end raw) (subsetOf ps q) "" home rest
        with ⟨r, out2, rest2⟩
      cases r with
      | ok key path2 =>
        cases hg : get_key_value ps key with
        | some kv => simp [hg, print_projects]
        | none => simp [hg, print_projects]
      | errNoProjects => simp [print_projects]
      | errNoMatch => simp [print_projects]
      | panic msg => simp [print_projects]
      | blocked => simp [print_projects]

/-- C3 witness: with a non-empty caller prompt, the sub-listing heading is
that prompt followed by the blank line. -/
theorem C3_witness :
    ((select_project "web" [("web-a", "/1"), ("web-b", "/2")] "P?" "" []).2.1).head? =
      some (if ("P?" : String) = ""
            then countHeading (subsetOf [("web-a", "/1"), ("web-b", "/2")] "web").length
            else "P?" ++ "\n\n") :=
  C3_amended_heading_is_callers_prompt "web" "P?" "" "web-a" "web-b" []
    [("web-a", "/1"), ("web-b", "/2")] [] (by decide) (by decide) (by decide)

/-- C4: on an ambiguous resolution the sub-mapping is exactly the matched
entries of the original mapping with unchanged values (its key list is the
matched key list), and any successful result's path is the one stored under
the returned name in the original mapping. -/
theorem C4_narrowing_and_relookup (q prompt home k1 k2 : String) (ks : List String)
    (ps : Projects)
    (_hq : q ≠ "") (_hnone : get_key_value ps q = none)
    (_hm : matchKeys ps q = k1 :: k2 :: ks) :
    subsetOf ps q = ps.filter (fun kv => contains kv.1 q)
    ∧ (subsetOf ps q).map Prod.fst = matchKeys ps q
    ∧ ∀ (stdin : List (Option String)) (name path : String),
        (select_project q ps prompt home stdin).1 = .ok name path →
        get_key_value ps name = some (name, path) :=
  ⟨subsetOf_eq_filter ps q, map_fst_subsetOf ps q,
   fun stdin name path h => ok_lookup q ps prompt home stdin name path h⟩

/-- C4 witness: `{"web-a": "/1", "web-b": "/2", "api": "/3"}` with query
`"web"`: the sub-mapping is the filtered original, and answering `"web-a"`
yields the pair stored in the original mapping. -/
theorem C4_witness :
    subsetOf [("web-a", "/1"), ("web-b", "/2"), ("api", "/3")] "web"
      = [("web-a", "/1"), ("web-b", "/2"), ("api", "/3")].filter
          (fun kv => contains kv.1 "web")
    ∧ get_key_value [("web-a", "/1"), ("web-b", "/2"), ("api", "/3")] "web-a"
        = some ("web-a", "/1") := by
  have h := C4_narrowing_and_relookup "web" "W?" "" "web-a" "web-b" []
    [("web-a", "/1"), ("web-b", "/2"), ("api", "/3")] (by decide) (by decide) (by decide)
  refine ⟨h.1, h.2.2 [some "web-a\n"] "web-a" "/1" ?_⟩
  simp +decide [select_project.eq_def, get_key_value, matchKeys, subsetOf, contains,
    trim_end, isRustWhitespace]

/-- C5: a non-empty query that equals no key but substring-matches exactly
one key resolves to that key's pair directly, with no prompting, even though
the query differs from the full key. -/
theorem C5_single_substring_match (q k v prompt home : String) (ps : Projects)
    (stdin : List (Option String))
    (nd : (ps.map Prod.fst).Nodup) (hq : q ≠ "")
    (hnoexact : q ∉ ps.map Prod.fst)
    (hone : matchKeys ps q = [k]) (hkv : (k, v) ∈ ps) :
    select_project q ps prompt home stdin = (.ok k v, [], stdin) := by
  have hnone : get_key_value ps q = none := get_key_value_eq_none.mpr hnoexact
  have hget : get ps k = some v := by
    rw [get, get_key_value_of_mem_nodup nd hkv]
    rfl
  exact sp_single hq hnone hone hget prompt home stdin

/-- C5 witness: `{"frontend": "/f"}` with query `"front"` resolves to
`("frontend", "/f")` with no I/O. -/
theorem C5_witness :
    select_project "front" [("frontend", "/f")] "P?" "" []
      = (.ok "frontend" "/f", [], []) :=
  C5_single_substring_match "front" "frontend" "/f" "P?" "" [("frontend", "/f")] []
    (by decide) (by decide) (by decide) (by decide) (by decide)

/-- C6: a non-empty query that equals no key and is a substring of no key
makes `select_project` fail with the no-match error. -/
theorem C6_no_match_fails (q prompt home : String) (ps : Projects)
    (stdin : List (Option String))
    (hps : ps ≠ []) (hq : q ≠ "")
    (hnokey : q ∉ ps.map Prod.fst)
    (hnosub : ∀ k ∈ ps.map Prod.fst, contains k q = false) :
    select_project q ps prompt home stdin = (.errNoMatch, [], stdin) := by
  have hm : matchKeys ps q = [] := matchKeys_nil_of_no_substring hnosub
  exact sp_noMatch hps hq (get_key_value_eq_none.mpr hnokey) hm prompt home stdin

/-- C6 witness: `{"frontend": "/f"}` with query `"zzz"` fails with the
no-match error. -/
theorem C6_witness :
    select_project "zzz" [("frontend", "/f")] "P?" "" [] = (.errNoMatch, [], []) :=
  C6_no_match_fails "zzz" "P?" "" [("frontend", "/f")] []
    (by decide) (by decide) (by decide) (by decide)

/-- C7 counterexample: when the read fails with an I/O error, the resolver
does not return any error value to its caller — it panics (the `.expect` in
`user_input`); in particular the result is neither of the resolver's error
values. -/
theorem C7_counterexample :
    (select_project "" [("a", "/a")] "p" "" [none]).1 = SpResult.panic "Read user input"
    ∧ (select_project "" [("a", "/a")] "p" "" [none]).1 ≠ SpResult.errNoProjects
    ∧ (select_project "" [("a", "/a")] "p" "" [none]).1 ≠ SpResult.errNoMatch := by
  have h : select_project "" [("a", "/a")] "p" "" [none] =
      (.panic "Read user input", print_projects "" [("a", "/a")] "p" ++ [enterPrompt], []) :=
    sp_prompt_panic (by decide) "p" "" []
  rw [h]
  exact ⟨rfl, by decide, by decide⟩

/-- C7 amended: an I/O failure while reading interactive input aborts the
resolution immediately by panicking with the `.expect` message; the read is
not retried (the rest of stdin is left untouched), at both read sites. -/
theorem C7_amended_panics_on_read_error :
    (∀ (ps : Projects) (prompt home : String) (rest : List (Option String)), ps ≠ [] →
      select_project "" ps prompt home (none :: rest) =
        (.panic "Read user input", print_projects home ps prompt ++ [enterPrompt], rest))
    ∧ (∀ (q prompt home k1 k2 : String) (ks : List String) (ps : Projects)
        (rest : List (Option String)),
        q ≠ "" → get_key_value ps q = none → matchKeys ps q = k1 :: k2 :: ks →
        select_project q ps prompt home (none :: rest) =
          (.panic "Read user input",
           print_projects home (subsetOf ps q) prompt ++ [enterPrompt], rest)) :=
  ⟨fun _ps prompt home rest hps => sp_prompt_panic hps prompt home rest,
   fun _q prompt home _k1 _k2 _ks _ps rest hq hnone hm =>
     sp_ambig_panic hq hnone hm prompt home rest⟩

/-- C7 witness: the failed read panics at once and the rest of stdin is left
unread. -/
theorem C7_witness :
    select_project "" [("a", "/a")] "Which?" "" [none, some "a\n"] =
      (.panic "Read user input",
       print_projects "" [("a", "/a")] "Which?" ++ [enterPrompt], [some "a\n"]) :=
  C7_amended_panics_on_read_error.1 [("a", "/a")] "Which?" "" [some "a\n"] (by decide)

/-- C8 counterexample: for the typed line `"abc \n"` the read returns
`"abc"`, not the `"abc "` that trimming only the newline would give: the
trailing space is removed too. -/
theorem C8_counterexample :
    (user_input [some "abc \n"]).1 = ReadOutcome.line "abc"
    ∧ ReadOutcome.line "abc" ≠ ReadOutcome.line "abc " :=
  ⟨by decide, by decide⟩

/-- C8 amended: the read returns the line with all trailing whitespace
trimmed (`str::trim_end`): a trailing newline is removed, and so are any
other trailing whitespace characters such as spaces or tabs; everything
before the trailing whitespace run is preserved unchanged. -/
theorem C8_amended_trims_all_trailing_whitespace (raw : String)
    (rest : List (Option String)) :
    user_input (some raw :: rest) = (.line (trim_end raw), rest)
    ∧ trim_end (raw ++ "\n") = trim_end raw
    ∧ ∃ ws : List Char,
        raw.data = (trim_end raw).data ++ ws
        ∧ (∀ c ∈ ws, isRustWhitespace c = true)
        ∧ (∀ c, (trim_end raw).data.getLast? = some c → isRustWhitespace c = false) :=
  ⟨rfl, trim_end_newline raw, trim_end_spec raw⟩

/-- C9: every listing of a non-empty mapping prints the pairs sorted by name
ascending, one per line, the name column padded to the longest name of that
listing plus the fixed 2-space gap; the width is a function of the listed
mapping only, so it is recomputed for every listing. -/
theorem C9_listing_sorted_and_padded (home prompt : String) (ps : Projects)
    (_hps : ps ≠ []) :
    print_projects home ps prompt =
      (if prompt = "" then countHeading ps.length else prompt ++ "\n\n") ::
        (sortPairs ps).map (fun kv =>
          boldOn ++ padRight kv.1 (listingWidth ps) ++ boldOff ++
            tilde_path home kv.2 ++ "\n")
    ∧ (sortPairs ps).Perm ps
    ∧ List.Sorted (fun a b : String × String => a.1 ≤ b.1) (sortPairs ps)
    ∧ ∀ kv ∈ ps, (padRight kv.1 (listingWidth ps)).length = listingWidth ps :=
  ⟨rfl, sortPairs_perm ps, sortPairs_sorted_names ps,
   fun _ hkv => padRight_length (length_le_listingWidth hkv)⟩

/-- C9 witness: in `{"x": "/1", "longname": "/2"}` the name `"x"` is padded
to `"longname"`'s width plus 2, while the narrowed listing `{"x": "/1"}`
recomputes the smaller width. -/
theorem C9_witness :
    List.Sorted (fun a b : String × String => a.1 ≤ b.1)
      (sortPairs [("x", "/1"), ("longname", "/2")])
    ∧ (padRight "x" (listingWidth [("x", "/1"), ("longname", "/2")])).length
        = listingWidth [("x", "/1"), ("longname", "/2")]
    ∧ (padRight "x" (listingWidth [("x", "/1")])).length = listingWidth [("x", "/1")]
    ∧ listingWidth [("x", "/1"), ("longname", "/2")] = 10
    ∧ listingWidth [("x", "/1")] = 3 := by
  have h1 := C9_listing_sorted_and_padded "" "" [("x", "/1"), ("longname", "/2")] (by decide)
  have h2 := C9_listing_sorted_and_padded "" "" [("x", "/1")] (by decide)
  exact ⟨h1.2.2.1, h1.2.2.2 ("x", "/1") (by decide), h2.2.2.2 ("x", "/1") (by decide),
    by decide, by decide⟩

/-- C10: a successful recursive disambiguation call returns a name that is a
key of the sub-mapping it ran on; sub-mapping keys are keys of the original
mapping; and consequently the final re-lookup's `.unwrap()` (and the
single-match `.unwrap()`) can never fire. -/
theorem C10_relookup_safe :
    (∀ (q : String) (ps : Projects) (prompt home : String)
       (stdin : List (Option String)) (name path : String),
       (select_project q ps prompt home stdin).1 = .ok name path →
       get_key_value ps name = some (name, path))
    ∧ (∀ (ps : Projects) (q : String),
        (subsetOf ps q).map Prod.fst ⊆ ps.map Prod.fst)
    ∧ (∀ (q : String) (ps : Projects) (prompt home : String)
        (stdin : List (Option String)),
        (select_project q ps prompt home stdin).1 ≠ .panic "unwrap") :=
  ⟨ok_lookup, keys_subsetOf_subset, no_unwrap_panic⟩

/-- C10 witness: a concrete successful resolution's name is looked up in the
mapping it ran on. -/
theorem C10_witness :
    get_key_value [("alpha", "/a"), ("beta", "/b")] "alpha" = some ("alpha", "/a") := by
  refine C10_relookup_safe.1 "alpha" [("alpha", "/a"), ("beta", "/b")] "P?" "" [] "alpha" "/a" ?_
  simp +decide [select_project.eq_def, get_key_value]

end Fast
